import Mathlib

/-!
Verification of the release script `op-releaser.py` of XertroV/op-plugin-releaser.

The script is embedded shallowly:

* Python's `tuple[int, int, int]` version triples become `Version := Int × Int × Int`.
* Python strings become `List Char`; `str.find` / `str.rfind` / `str.replace` /
  `str.split` / `str.join` / `int(...)` / `str(...)` are modelled by executable
  Lean functions `pyFind`, `pyRFind`, `pyReplace`, `pySplit`, `pyJoin`, `pyInt`,
  `strOfInt` with the same semantics on the inputs the script can produce.
* Every `raise Exception(msg)` site becomes a distinct constructor of `Err`
  (the spec's error names `MissingManifest`, `VersionNotFound`, ... are the
  natural-language names of these raise sites); fallible functions return
  `Except Err _`.
* The file system and git repository become an explicit environment `Env`;
  the orchestrator `run_release` threads it and records a trace of started
  steps, the final manifest text, the emitted git events and the build log.
-/

abbrev Version := Int × Int × Int

/-- One constructor per failure site of the script (plus the underlying
`git.InvalidGitRepositoryError` / toml parse / git command failures). -/
inductive Err where
  | invalidGitRepository
  | notInGitRepo
  | missingManifest
  | tomlParseError
  | keyError (key : String)
  | malformedVersion
  | intParseError
  | versionNotFound
  | ambiguousVersion
  | invalidBumpLevel
  | gitCommitError
deriving DecidableEq, Repr

/-- Decimal digit character, `chr(48 + d)`. -/
def digitChar (d : Nat) : Char := Char.ofNat (48 + d)

/-- Fuel-driven helper for `natToStr`; the fuel is always ample, it only
makes the recursion structural so that concrete inputs reduce in the kernel. -/
def natToStrAux (fuel : Nat) (n : Nat) : List Char :=
  match fuel with
  | 0 => []
  | fuel + 1 =>
    if n < 10 then [digitChar n]
    else natToStrAux fuel (n / 10) ++ [digitChar (n % 10)]

/-- Decimal rendering of a natural number, as Python `str` produces for
non-negative ints: most significant digit first, no sign, no leading zeros
(except `"0"` itself). -/
def natToStr (n : Nat) : List Char := natToStrAux (n + 1) n

/-- Python `str(i)` for an int `i`. -/
def strOfInt (i : Int) : List Char :=
  if i < 0 then '-' :: natToStr i.natAbs else natToStr i.toNat

/-- Python `sep.join(parts)`. -/
def pyJoin (sep : List Char) : List (List Char) → List Char
  | [] => []
  | [p] => p
  | p :: ps => p ++ sep ++ pyJoin sep ps

/-- `version_to_str` (src/op-releaser.py:45-46): `".".join(map(str, ver))`. -/
def version_to_str (ver : Version) : List Char :=
  pyJoin ['.'] [strOfInt ver.1, strOfInt ver.2.1, strOfInt ver.2.2]

/-- Python `s.split(sep)` for a single-character separator `sep`. -/
def pySplit (sep : Char) : List Char → List (List Char)
  | [] => [[]]
  | c :: cs =>
    if c = sep then [] :: pySplit sep cs
    else (c :: (pySplit sep cs).headD []) :: (pySplit sep cs).tail

/-- Value of a decimal digit character, `none` on a non-digit. -/
def digitVal (c : Char) : Option Nat :=
  if c.isDigit then some (c.toNat - 48) else none

/-- Accumulating decimal parser over the remaining characters. -/
def parseDigitsAux (acc : Nat) : List Char → Option Nat
  | [] => some acc
  | c :: cs =>
    match digitVal c with
    | none => none
    | some d => parseDigitsAux (10 * acc + d) cs

/-- Parse a non-empty all-digit string. -/
def parseDigits (s : List Char) : Option Nat :=
  if s.isEmpty then none else parseDigitsAux 0 s

/-- Python `int(s)` restricted to the grammar `[+-]? digit+` (CPython also
strips whitespace and allows underscores; the script never produces such
inputs). `none` models the `ValueError`. -/
def pyInt (s : List Char) : Option Int :=
  match s with
  | [] => none
  | c :: rest =>
    if c = '-' then (parseDigits rest).map (fun n => -(n : Int))
    else if c = '+' then (parseDigits rest).map (fun n => (n : Int))
    else (parseDigits (c :: rest)).map (fun n => (n : Int))

/-- `version_from_str` (src/op-releaser.py:49-53): split on `'.'`, demand
exactly three parts, parse each as an int (left to right, as the Python tuple
expression evaluates). -/
def version_from_str (s : List Char) : Except Err Version :=
  let parts := pySplit '.' s
  if parts.length ≠ 3 then Except.error Err.malformedVersion
  else
    match pyInt (parts.getD 0 []) with
    | none => Except.error Err.intParseError
    | some a =>
      match pyInt (parts.getD 1 []) with
      | none => Except.error Err.intParseError
      | some b =>
        match pyInt (parts.getD 2 []) with
        | none => Except.error Err.intParseError
        | some c => Except.ok (a, b, c)

/-- `bump_version` (src/op-releaser.py:56-63). -/
def bump_version (ver : Version) (bump_level : String) : Except Err Version :=
  if bump_level = "major" then Except.ok (ver.1 + 1, 0, 0)
  else if bump_level = "minor" then Except.ok (ver.1, ver.2.1 + 1, 0)
  else if bump_level = "patch" then Except.ok (ver.1, ver.2.1, ver.2.2 + 1)
  else Except.error Err.invalidBumpLevel

/-! ### Substring search and replacement (Python `in`, `find`, `rfind`, `replace`) -/

/-- `pat` occurs in `s` at index `i` (the Python notion of occurrence:
`s[i : i + len(pat)] == pat`). -/
def occursAt (pat s : List Char) (i : Nat) : Prop :=
  i + pat.length ≤ s.length ∧ pat <+: s.drop i

instance (pat s : List Char) (i : Nat) : Decidable (occursAt pat s i) := by
  unfold occursAt; infer_instance

/-- `pat` occurs in `s` exactly once, at index `i`. -/
def uniqueOccursAt (pat s : List Char) (i : Nat) : Prop :=
  occursAt pat s i ∧ ∀ j, occursAt pat s j → j = i

/-- Python `s.find(pat)`: least index of an occurrence; `none` stands for
Python's `-1`, and `not in` is `(pyFind pat s).isSome = false`. -/
def pyFind (pat : List Char) : List Char → Option Nat
  | [] => if pat = [] then some 0 else none
  | c :: s' =>
    if pat <+: c :: s' then some 0
    else (pyFind pat s').map (· + 1)

/-- Python `s.rfind(pat)`: greatest index of an occurrence. -/
def pyRFind (pat : List Char) : List Char → Option Nat
  | [] => if pat = [] then some 0 else none
  | c :: s' =>
    match pyRFind pat s' with
    | some i => some (i + 1)
    | none => if pat <+: c :: s' then some 0 else none

/-- Fuel-driven helper for `pyReplace`; fuel is always ample (it only makes
the recursion structural). -/
def pyReplaceAux (pat sub : List Char) : Nat → List Char → List Char
  | 0, s => s
  | fuel + 1, s =>
    if pat <+: s then sub ++ pyReplaceAux pat sub fuel (s.drop pat.length)
    else
      match s with
      | [] => []
      | c :: s' => c :: pyReplaceAux pat sub fuel s'

/-- Python `s.replace(pat, sub)`: replace every occurrence, scanning left to
right, skipping past each replacement. -/
def pyReplace (pat sub s : List Char) : List Char :=
  if pat = [] then sub ++ s.flatMap (fun c => c :: sub)
  else pyReplaceAux pat sub (s.length + 1) s

/-- `update_info_toml_version` (src/op-releaser.py:30-42) on an explicit file
state: first component is the outcome, second the file content afterwards
(`info_exists = false` models a missing `./info.toml`). -/
def update_info_toml_version (prior_ver new_ver : Version) (info_exists : Bool)
    (info_str : List Char) : Except Err Unit × List Char :=
  if info_exists = false then (Except.error Err.missingManifest, info_str)
  else
    let pv_str := version_to_str prior_ver
    if (pyFind pv_str info_str).isSome = false then
      (Except.error Err.versionNotFound, info_str)
    else if pyFind pv_str info_str ≠ pyRFind pv_str info_str then
      (Except.error Err.ambiguousVersion, info_str)
    else
      (Except.ok (), pyReplace pv_str (version_to_str new_ver) info_str)

/-! ### Manifest reader, git gateway, build invoker, orchestrator -/

/-- Parsed TOML document, restricted to the shape the script reads:
string-valued keys inside top-level tables (the `toml.load` result). -/
abbrev TomlTable := List (String × String)

abbrev TomlDoc := List (String × TomlTable)

/-- `read_info_toml_version` (src/op-releaser.py:19-27): check the file
exists, parse it (`none` models a `toml` parse failure), read
`info['meta']['version']` then `info['meta']['name']` (a missing key is a
Python `KeyError`), and parse the version string.  The name is only used for
logging but is still looked up. -/
def read_info_toml_version (info_exists : Bool) (info : Option TomlDoc) :
    Except Err Version :=
  if info_exists = false then Except.error Err.missingManifest
  else
    match info with
    | none => Except.error Err.tomlParseError
    | some doc =>
      match List.lookup "meta" doc with
      | none => Except.error (Err.keyError "meta")
      | some meta =>
        match List.lookup "version" meta with
        | none => Except.error (Err.keyError "version")
        | some version =>
          match List.lookup "name" meta with
          | none => Except.error (Err.keyError "name")
          | some _plugin_name => version_from_str version.data

/-- A `git.Repo` object: the one attribute the script reads. -/
structure PyRepo where
  bare : Bool

/-- The working directory and repository state one `run_release` run sees. -/
structure Env where
  fileExists : Bool
  fileText : List Char
  fileDoc : Option TomlDoc
  repoExists : Bool
  repoBare : Bool
  commitVersionOk : Bool
  commitArtifactsOk : Bool
  buildReturnCode : Int

/-- `git_get_repo` (src/op-releaser.py:66-67): `Repo(os.curdir)` raises
`InvalidGitRepositoryError` when the directory has no version-control
metadata. -/
def git_get_repo (repoExists repoBare : Bool) : Except Err PyRepo :=
  if repoExists then Except.ok ⟨repoBare⟩ else Except.error Err.invalidGitRepository

/-- `git_check_in_repo` (src/op-releaser.py:70-74).  `Repo(...)` never returns
`None`, so the `repo is None` disjunct of line 72 is vacuous. -/
def git_check_in_repo (repoExists repoBare : Bool) : Except Err Bool :=
  match git_get_repo repoExists repoBare with
  | Except.error e => Except.error e
  | Except.ok repo => if repo.bare then Except.ok false else Except.ok true

/-- Events the version-control gateway emits. -/
inductive GitEvent where
  | add (path : List Char)
  | commit (msg : List Char)
  | tag (name : List Char)
deriving DecidableEq, Repr

/-- `git_commit_version` (src/op-releaser.py:77-82): stage the manifest,
commit, and tag with the canonical version string.  `ok = false` models a
failure of the underlying git commands (e.g. a tag collision). -/
def git_commit_version (ok : Bool) (prior_ver ver : Version) :
    Except Err (List GitEvent) :=
  if ok then
    Except.ok [GitEvent.add "info.toml".data,
      GitEvent.commit ("Version: ".data ++ version_to_str ver),
      GitEvent.tag (version_to_str ver)]
  else Except.error Err.gitCommitError

/-- `build_plugin` (src/op-releaser.py:85-88): spawn the build script, log its
output and return code.  It never fails: the returned pair is exactly the
logged payload (version, return code); no exception path exists. -/
def build_plugin (returnCode : Int) (ver : Version) : Version × Int :=
  (ver, returnCode)

/-- `git_commit_new_release` (src/op-releaser.py:91-95): stage the build
artifacts (`./*.op`) and commit. -/
def git_commit_new_release (ok : Bool) (ver : Version) : Except Err (List GitEvent) :=
  if ok then
    Except.ok [GitEvent.add "./*.op".data,
      GitEvent.commit ("Release: ".data ++ version_to_str ver)]
  else Except.error Err.gitCommitError

/-- The seven steps of one release run, in source order
(src/op-releaser.py:98-106). -/
inductive Step where
  | checkRepo
  | readVersion
  | bumpVersion
  | writeManifest
  | commitVersion
  | build
  | commitArtifacts
deriving DecidableEq, Repr

def releaseSteps : List Step :=
  [Step.checkRepo, Step.readVersion, Step.bumpVersion, Step.writeManifest,
   Step.commitVersion, Step.build, Step.commitArtifacts]

/-- Result of one `run_release` call: the steps that started, the outcome,
the final manifest text, the git events committed, and the build log. -/
structure RunResult where
  trace : List Step
  outcome : Except Err Unit
  fileText : List Char
  events : List GitEvent
  buildLog : Option (Version × Int)
deriving Repr

/-- `run_release` (src/op-releaser.py:98-106): straight-line orchestration;
an error in any step returns immediately (the Python exception propagates),
so a step is in the trace exactly when it started. -/
def run_release (env : Env) (bump_level : String) : RunResult :=
  match git_check_in_repo env.repoExists env.repoBare with
  | Except.error e => ⟨[Step.checkRepo], Except.error e, env.fileText, [], none⟩
  | Except.ok inRepo =>
    if inRepo = false then
      ⟨[Step.checkRepo], Except.error Err.notInGitRepo, env.fileText, [], none⟩
    else
      match read_info_toml_version env.fileExists env.fileDoc with
      | Except.error e =>
        ⟨releaseSteps.take 2, Except.error e, env.fileText, [], none⟩
      | Except.ok prior_ver =>
        match bump_version prior_ver bump_level with
        | Except.error e =>
          ⟨releaseSteps.take 3, Except.error e, env.fileText, [], none⟩
        | Except.ok ver =>
          match update_info_toml_version prior_ver ver env.fileExists env.fileText with
          | (Except.error e, text') =>
            ⟨releaseSteps.take 4, Except.error e, text', [], none⟩
          | (Except.ok _, text') =>
            match git_commit_version env.commitVersionOk prior_ver ver with
            | Except.error e =>
              ⟨releaseSteps.take 5, Except.error e, text', [], none⟩
            | Except.ok ev1 =>
              let log := build_plugin env.buildReturnCode ver
              match git_commit_new_release env.commitArtifactsOk ver with
              | Except.error e =>
                ⟨releaseSteps, Except.error e, text', ev1, some log⟩
              | Except.ok ev2 =>
                ⟨releaseSteps, Except.ok (), text', ev1 ++ ev2, some log⟩

/-! ### Per-step outcomes of the pipeline, for stating fail-fast

Each `...Result` function chains the component functions exactly as
`run_release` does, giving the outcome a given step would produce; a
`...Passes` predicate says the pipeline completes that step without raising. -/

/-- The repository check passes: the directory is a non-bare repository. -/
def checkPasses (env : Env) : Prop :=
  git_check_in_repo env.repoExists env.repoBare = Except.ok true

/-- Outcome of the read step. -/
def readResult (env : Env) : Except Err Version :=
  read_info_toml_version env.fileExists env.fileDoc

/-- Outcome of the bump step (after a successful read). -/
def bumpResult (env : Env) (bump_level : String) : Except Err Version :=
  match readResult env with
  | Except.error e => Except.error e
  | Except.ok prior_ver => bump_version prior_ver bump_level

/-- Outcome of the manifest-write step. -/
def writeResult (env : Env) (bump_level : String) : Except Err Unit :=
  match readResult env with
  | Except.error e => Except.error e
  | Except.ok prior_ver =>
    match bump_version prior_ver bump_level with
    | Except.error e => Except.error e
    | Except.ok ver =>
      (update_info_toml_version prior_ver ver env.fileExists env.fileText).1

/-- Outcome of the version-commit step. -/
def commitVersionResult (env : Env) (bump_level : String) :
    Except Err (List GitEvent) :=
  match readResult env with
  | Except.error e => Except.error e
  | Except.ok prior_ver =>
    match bump_version prior_ver bump_level with
    | Except.error e => Except.error e
    | Except.ok ver =>
      match (update_info_toml_version prior_ver ver env.fileExists env.fileText).1 with
      | Except.error e => Except.error e
      | Except.ok _ => git_commit_version env.commitVersionOk prior_ver ver

/-- Outcome of the artifact-commit step (the build step in between never
raises). -/
def commitArtifactsResult (env : Env) (bump_level : String) :
    Except Err (List GitEvent) :=
  match readResult env with
  | Except.error e => Except.error e
  | Except.ok prior_ver =>
    match bump_version prior_ver bump_level with
    | Except.error e => Except.error e
    | Except.ok ver =>
      match (update_info_toml_version prior_ver ver env.fileExists env.fileText).1 with
      | Except.error e => Except.error e
      | Except.ok _ =>
        match git_commit_version env.commitVersionOk prior_ver ver with
        | Except.error e => Except.error e
        | Except.ok _ => git_commit_new_release env.commitArtifactsOk ver

def readPasses (env : Env) : Prop :=
  checkPasses env ∧ (readResult env).isOk = true

def bumpPasses (env : Env) (bump_level : String) : Prop :=
  readPasses env ∧ (bumpResult env bump_level).isOk = true

def writePasses (env : Env) (bump_level : String) : Prop :=
  bumpPasses env bump_level ∧ (writeResult env bump_level).isOk = true

def commitVersionPasses (env : Env) (bump_level : String) : Prop :=
  writePasses env bump_level ∧ (commitVersionResult env bump_level).isOk = true

def commitArtifactsPasses (env : Env) (bump_level : String) : Prop :=
  commitVersionPasses env bump_level ∧ (commitArtifactsResult env bump_level).isOk = true

lemma natToStrAux_irrel :
    ∀ f₁ f₂ n, n < f₁ → n < f₂ → natToStrAux f₁ n = natToStrAux f₂ n := by
  intro f₁
  induction f₁ with
  | zero => intro f₂ n h; omega
  | succ f ih =>
    intro f₂ n h₁ h₂
    cases f₂ with
    | zero => omega
    | succ g =>
      simp only [natToStrAux]
      by_cases h : n < 10
      · simp [h]
      · rw [if_neg h, if_neg h, ih g (n / 10) (by omega) (by omega)]

/-! ### Facts about decimal rendering and parsing -/

lemma natToStr_lt (h : n < 10) : natToStr n = [digitChar n] := by
  rw [natToStr]; simp [natToStrAux, h]

lemma natToStr_ge (h : 10 ≤ n) :
    natToStr n = natToStr (n / 10) ++ [digitChar (n % 10)] := by
  rw [natToStr]
  simp only [natToStrAux, Nat.not_lt.2 h, if_false]
  rw [natToStrAux_irrel n (n / 10 + 1) (n / 10) (by omega) (by omega)]
  rfl

lemma digitChar_isDigit (h : d < 10) : (digitChar d).isDigit = true := by
  interval_cases d <;> decide

lemma digitVal_digitChar (h : d < 10) : digitVal (digitChar d) = some d := by
  interval_cases d <;> decide

lemma mem_natToStr_isDigit :
    ∀ n, ∀ c ∈ natToStr n, c.isDigit = true := by
  intro n
  induction n using Nat.strong_induction_on with
  | _ n ih =>
    by_cases h : n < 10
    · rw [natToStr_lt h]
      intro c hc
      simp only [List.mem_singleton] at hc
      subst hc
      exact digitChar_isDigit h
    · rw [natToStr_ge (by omega)]
      intro c hc
      rcases List.mem_append.1 hc with hc | hc
      · exact ih (n / 10) (by omega) c hc
      · simp only [List.mem_singleton] at hc
        subst hc
        exact digitChar_isDigit (by omega)

lemma natToStr_ne_nil : natToStr n ≠ [] := by
  by_cases h : n < 10
  · rw [natToStr_lt h]; simp
  · rw [natToStr_ge (by omega)]; simp

lemma parseDigitsAux_append (xs ys : List Char) :
    ∀ acc, parseDigitsAux acc (xs ++ ys) =
      (parseDigitsAux acc xs).bind (fun m => parseDigitsAux m ys) := by
  induction xs with
  | nil => intro acc; simp [parseDigitsAux]
  | cons c cs ih =>
    intro acc
    simp only [List.cons_append, parseDigitsAux]
    cases digitVal c with
    | none => simp
    | some d => simp [ih]

lemma parseDigitsAux_natToStr :
    ∀ n acc, parseDigitsAux acc (natToStr n) =
      some (acc * 10 ^ (natToStr n).length + n) := by
  intro n
  induction n using Nat.strong_induction_on with
  | _ n ih =>
    intro acc
    by_cases h : n < 10
    · rw [natToStr_lt h]
      simp [parseDigitsAux, digitVal_digitChar h]
      omega
    · rw [natToStr_ge (by omega), parseDigitsAux_append]
      rw [ih (n / 10) (by omega) acc]
      simp only [parseDigitsAux, digitVal_digitChar (show n % 10 < 10 by omega),
        Option.some_bind]
      congr 1
      rw [List.length_append, List.length_singleton, pow_succ, ← mul_assoc]
      generalize acc * 10 ^ (natToStr (n / 10)).length = A
      omega

lemma parseDigits_natToStr (n : Nat) : parseDigits (natToStr n) = some n := by
  unfold parseDigits
  rw [if_neg (by simpa [List.isEmpty_iff] using natToStr_ne_nil)]
  simpa using parseDigitsAux_natToStr n 0

lemma pyInt_natToStr (n : Nat) : pyInt (natToStr n) = some (n : Int) := by
  obtain ⟨c, rest, hcr⟩ := List.exists_cons_of_ne_nil (natToStr_ne_nil (n := n))
  have hdig : c.isDigit = true := by
    apply mem_natToStr_isDigit n
    rw [hcr]; exact List.mem_cons_self _ _
  rw [hcr, pyInt]
  rw [if_neg (by rintro rfl; simp [Char.isDigit] at hdig),
      if_neg (by rintro rfl; simp [Char.isDigit] at hdig)]
  rw [← hcr, parseDigits_natToStr]
  rfl

lemma dot_not_mem_natToStr (n : Nat) : '.' ∉ natToStr n := by
  intro h
  have := mem_natToStr_isDigit n '.' h
  simp [Char.isDigit] at this

lemma strOfInt_natCast (a : Nat) : strOfInt (a : Int) = natToStr a := by
  unfold strOfInt
  rw [if_neg (by omega)]
  congr 1

/-! ### Facts about `pySplit` -/

lemma pySplit_ne_nil (sep : Char) : ∀ s, pySplit sep s ≠ [] := by
  intro s
  cases s with
  | nil => simp [pySplit]
  | cons c cs =>
    rw [pySplit]
    split <;> simp

lemma pySplit_of_not_mem {sep : Char} {s : List Char} (h : sep ∉ s) :
    pySplit sep s = [s] := by
  induction s with
  | nil => rfl
  | cons c cs ih =>
    have hcs : sep ∉ cs := fun hm => h (List.mem_cons_of_mem _ hm)
    have hc : c ≠ sep := fun hc => h (hc ▸ List.mem_cons_self _ _)
    rw [pySplit, if_neg hc, ih hcs]
    simp

lemma pySplit_append {sep : Char} {xs : List Char} (ys : List Char) (h : sep ∉ xs) :
    pySplit sep (xs ++ sep :: ys) = xs :: pySplit sep ys := by
  induction xs with
  | nil =>
    simp only [List.nil_append]
    rw [pySplit, if_pos rfl]
  | cons c cs ih =>
    have hcs : sep ∉ cs := fun hm => h (List.mem_cons_of_mem _ hm)
    have hc : c ≠ sep := fun hc => h (hc ▸ List.mem_cons_self _ _)
    simp only [List.cons_append]
    rw [pySplit, if_neg hc, ih hcs]
    simp

/-! ### Lemmas about occurrences, `pyFind`, `pyRFind`, `pyReplace` -/

lemma occursAt_zero {pat s : List Char} : occursAt pat s 0 ↔ pat <+: s := by
  unfold occursAt
  constructor
  · rintro ⟨-, h⟩; simpa using h
  · intro h; exact ⟨by simpa using h.length_le, by simpa using h⟩

lemma occursAt_cons_succ {pat s : List Char} {c : Char} {i : Nat} :
    occursAt pat (c :: s) (i + 1) ↔ occursAt pat s i := by
  unfold occursAt
  rw [List.drop_succ_cons, List.length_cons]
  exact and_congr (by omega) Iff.rfl

lemma occursAt_nil {pat : List Char} {i : Nat} (h : occursAt pat [] i) :
    pat = [] ∧ i = 0 := by
  obtain ⟨h1, h2⟩ := h
  simp only [List.drop_nil] at h2
  rcases List.prefix_nil.1 h2 with rfl
  simp only [List.length_nil] at h1
  exact ⟨rfl, by omega⟩

lemma infix_iff_exists_occursAt {pat s : List Char} :
    pat <:+: s ↔ ∃ i, occursAt pat s i := by
  constructor
  · rintro ⟨t, u, rfl⟩
    refine ⟨t.length, ?_, ?_⟩
    · simp only [List.length_append]; omega
    · rw [List.append_assoc, List.drop_left]
      exact List.prefix_append pat u
  · rintro ⟨i, -, h⟩
    exact h.isInfix.trans (List.drop_suffix i s).isInfix

lemma pyFind_some_occursAt {pat : List Char} :
    ∀ s i, pyFind pat s = some i → occursAt pat s i := by
  intro s
  induction s with
  | nil =>
    intro i h
    rw [pyFind] at h
    split at h
    · rename_i hp
      subst hp
      obtain rfl : (0 : Nat) = i := by simpa using h
      simp [occursAt]
    · simp at h
  | cons c s' ih =>
    intro i h
    rw [pyFind] at h
    split at h
    · rename_i hp
      obtain rfl : (0 : Nat) = i := by simpa using h
      exact occursAt_zero.2 hp
    · rcases Option.map_eq_some'.1 h with ⟨i', hi', rfl⟩
      exact occursAt_cons_succ.2 (ih i' hi')

lemma pyFind_some_min {pat : List Char} :
    ∀ s i, pyFind pat s = some i → ∀ j, occursAt pat s j → i ≤ j := by
  intro s
  induction s with
  | nil =>
    intro i h j hj
    obtain ⟨rfl, rfl⟩ := occursAt_nil hj
    rw [pyFind, if_pos rfl] at h
    obtain rfl : (0 : Nat) = i := by simpa using h
    omega
  | cons c s' ih =>
    intro i h j hj
    rw [pyFind] at h
    split at h
    · obtain rfl : (0 : Nat) = i := by simpa using h
      omega
    · rename_i hp
      rcases Option.map_eq_some'.1 h with ⟨i', hi', rfl⟩
      cases j with
      | zero => exact absurd (occursAt_zero.1 hj) hp
      | succ j' => exact Nat.succ_le_succ (ih i' hi' j' (occursAt_cons_succ.1 hj))

lemma pyFind_eq_none_iff {pat : List Char} :
    ∀ s, pyFind pat s = none ↔ ∀ j, ¬ occursAt pat s j := by
  intro s
  induction s with
  | nil =>
    rw [pyFind]
    split
    · rename_i hp
      subst hp
      simp only [reduceCtorEq, false_iff, not_forall, not_not]
      exact ⟨0, by simp [occursAt]⟩
    · rename_i hp
      simp only [true_iff]
      intro j hj
      exact hp (occursAt_nil hj).1
  | cons c s' ih =>
    rw [pyFind]
    split
    · rename_i hp
      simp only [reduceCtorEq, false_iff, not_forall, not_not]
      exact ⟨0, occursAt_zero.2 hp⟩
    · rename_i hp
      simp only [Option.map_eq_none', ih]
      constructor
      · intro h j hj
        cases j with
        | zero => exact hp (occursAt_zero.1 hj)
        | succ j' => exact h j' (occursAt_cons_succ.1 hj)
      · intro h j hj
        exact h (j + 1) (occursAt_cons_succ.2 hj)

lemma pyRFind_some_occursAt {pat : List Char} :
    ∀ s i, pyRFind pat s = some i → occursAt pat s i := by
  intro s
  induction s with
  | nil =>
    intro i h
    rw [pyRFind] at h
    split at h
    · rename_i hp
      subst hp
      obtain rfl : (0 : Nat) = i := by simpa using h
      simp [occursAt]
    · simp at h
  | cons c s' ih =>
    intro i h
    rw [pyRFind] at h
    split at h
    · rename_i i' hi'
      obtain rfl : i' + 1 = i := by simpa using h
      exact occursAt_cons_succ.2 (ih i' hi')
    · split at h
      · rename_i hp
        obtain rfl : (0 : Nat) = i := by simpa using h
        exact occursAt_zero.2 hp
      · simp at h

lemma pyRFind_eq_none_iff {pat : List Char} :
    ∀ s, pyRFind pat s = none ↔ ∀ j, ¬ occursAt pat s j := by
  intro s
  induction s with
  | nil =>
    rw [pyRFind]
    split
    · rename_i hp
      subst hp
      simp only [reduceCtorEq, false_iff, not_forall, not_not]
      exact ⟨0, by simp [occursAt]⟩
    · rename_i hp
      simp only [true_iff]
      intro j hj
      exact hp (occursAt_nil hj).1
  | cons c s' ih =>
    rw [pyRFind]
    split
    · rename_i i' hi'
      simp only [reduceCtorEq, false_iff, not_forall, not_not]
      exact ⟨i' + 1, occursAt_cons_succ.2 (pyRFind_some_occursAt s' i' hi')⟩
    · rename_i hnone
      split
      · rename_i hp
        simp only [reduceCtorEq, false_iff, not_forall, not_not]
        exact ⟨0, occursAt_zero.2 hp⟩
      · rename_i hp
        simp only [true_iff]
        intro j hj
        cases j with
        | zero => exact hp (occursAt_zero.1 hj)
        | succ j' => exact (ih.1 hnone) j' (occursAt_cons_succ.1 hj)

lemma pyRFind_some_max {pat : List Char} :
    ∀ s i, pyRFind pat s = some i → ∀ j, occursAt pat s j → j ≤ i := by
  intro s
  induction s with
  | nil =>
    intro i h j hj
    obtain ⟨rfl, rfl⟩ := occursAt_nil hj
    omega
  | cons c s' ih =>
    intro i h j hj
    rw [pyRFind] at h
    split at h
    · rename_i i' hi'
      obtain rfl : i' + 1 = i := by simpa using h
      cases j with
      | zero => omega
      | succ j' => exact Nat.succ_le_succ (ih i' hi' j' (occursAt_cons_succ.1 hj))
    · rename_i hnone
      split at h
      · obtain rfl : (0 : Nat) = i := by simpa using h
        cases j with
        | zero => omega
        | succ j' => exact absurd (occursAt_cons_succ.1 hj) (pyRFind_eq_none_iff s' |>.1 hnone j')
      · simp at h

lemma find_rfind_eq_unique {pat s : List Char} {i : Nat}
    (hf : pyFind pat s = some i) (hr : pyRFind pat s = some i) :
    uniqueOccursAt pat s i :=
  ⟨pyFind_some_occursAt s i hf, fun j hj =>
    Nat.le_antisymm (pyRFind_some_max s i hr j hj) (pyFind_some_min s i hf j hj)⟩

lemma unique_find_rfind {pat s : List Char} {i : Nat} (h : uniqueOccursAt pat s i) :
    pyFind pat s = some i ∧ pyRFind pat s = some i := by
  obtain ⟨hi, huniq⟩ := h
  constructor
  · cases hm : pyFind pat s with
    | none => exact absurd hi ((pyFind_eq_none_iff s).1 hm i)
    | some m => rw [huniq m (pyFind_some_occursAt s m hm)]
  · cases hm : pyRFind pat s with
    | none => exact absurd hi ((pyRFind_eq_none_iff s).1 hm i)
    | some m => rw [huniq m (pyRFind_some_occursAt s m hm)]

lemma occursAt_isSome_find {pat s : List Char} {i : Nat} (h : occursAt pat s i) :
    (pyFind pat s).isSome = true := by
  cases hm : pyFind pat s with
  | none => exact absurd h ((pyFind_eq_none_iff s).1 hm i)
  | some m => rfl

lemma occursAt_of_occursAt_drop {pat s : List Char} {n j : Nat}
    (hpat : pat ≠ []) (h : occursAt pat (s.drop n) j) : occursAt pat s (n + j) := by
  obtain ⟨h1, h2⟩ := h
  have hL : 0 < pat.length := List.length_pos.2 hpat
  rw [List.length_drop] at h1
  refine ⟨by omega, ?_⟩
  rw [List.drop_drop] at h2
  exact h2

lemma pyReplaceAux_succ (pat sub : List Char) (fuel : Nat) (s : List Char) :
    pyReplaceAux pat sub (fuel + 1) s =
      if pat <+: s then sub ++ pyReplaceAux pat sub fuel (s.drop pat.length)
      else
        match s with
        | [] => []
        | c :: s' => c :: pyReplaceAux pat sub fuel s' := rfl

lemma pyReplaceAux_irrel {pat sub : List Char} (hpat : pat ≠ []) :
    ∀ f₁ f₂ s, s.length < f₁ → s.length < f₂ →
      pyReplaceAux pat sub f₁ s = pyReplaceAux pat sub f₂ s := by
  have hL : 0 < pat.length := List.length_pos.2 hpat
  intro f₁
  induction f₁ with
  | zero => intro f₂ s h; omega
  | succ f ih =>
    intro f₂ s h₁ h₂
    cases f₂ with
    | zero => omega
    | succ g =>
      simp only [pyReplaceAux]
      by_cases hp : pat <+: s
      · have hps := hp.length_le
        rw [if_pos hp, if_pos hp,
          ih g (s.drop pat.length) (by rw [List.length_drop]; omega)
            (by rw [List.length_drop]; omega)]
      · rw [if_neg hp, if_neg hp]
        cases s with
        | nil => rfl
        | cons c s' =>
          show c :: pyReplaceAux pat sub f s' = c :: pyReplaceAux pat sub g s'
          rw [ih g s' (by simp at h₁ ⊢; omega) (by simp at h₂ ⊢; omega)]

lemma pyReplace_nil {pat sub : List Char} (hpat : pat ≠ []) :
    pyReplace pat sub [] = [] := by
  unfold pyReplace
  rw [if_neg hpat]
  show pyReplaceAux pat sub 1 [] = []
  simp only [pyReplaceAux]
  rw [if_neg (by simpa [List.prefix_nil] using hpat)]

lemma pyReplace_prefix_step {pat sub s : List Char} (hpat : pat ≠ []) (hp : pat <+: s) :
    pyReplace pat sub s = sub ++ pyReplace pat sub (s.drop pat.length) := by
  have hL : 0 < pat.length := List.length_pos.2 hpat
  have hLs : pat.length ≤ s.length := hp.length_le
  unfold pyReplace
  rw [if_neg hpat, if_neg hpat]
  show pyReplaceAux pat sub (s.length + 1) s = _
  rw [pyReplaceAux_succ, if_pos hp]
  congr 1
  exact pyReplaceAux_irrel hpat s.length ((s.drop pat.length).length + 1) (s.drop pat.length)
    (by rw [List.length_drop]; omega) (by omega)

lemma pyReplace_cons_neg {pat sub s' : List Char} {c : Char} (hpat : pat ≠ [])
    (hp : ¬ pat <+: c :: s') :
    pyReplace pat sub (c :: s') = c :: pyReplace pat sub s' := by
  unfold pyReplace
  rw [if_neg hpat, if_neg hpat]
  show pyReplaceAux pat sub ((c :: s').length + 1) (c :: s') = _
  rw [pyReplaceAux_succ, if_neg hp]
  show c :: pyReplaceAux pat sub (c :: s').length s' = _
  rw [pyReplaceAux_irrel hpat (c :: s').length (s'.length + 1) s' (by simp) (by omega)]

lemma pyReplace_no_occurrence {pat sub : List Char} (hpat : pat ≠ []) :
    ∀ s, (∀ j, ¬ occursAt pat s j) → pyReplace pat sub s = s := by
  intro s
  induction s with
  | nil => intro _; exact pyReplace_nil hpat
  | cons c s' ih =>
    intro h
    have hp : ¬ pat <+: c :: s' := fun hp => h 0 (occursAt_zero.2 hp)
    rw [pyReplace_cons_neg hpat hp, ih (fun j hj => h (j + 1) (occursAt_cons_succ.2 hj))]

lemma pyReplace_unique {pat sub : List Char} (hpat : pat ≠ []) :
    ∀ s i, uniqueOccursAt pat s i →
      pyReplace pat sub s = s.take i ++ sub ++ s.drop (i + pat.length) := by
  have hL : 0 < pat.length := List.length_pos.2 hpat
  intro s
  induction s with
  | nil =>
    intro i h
    exact absurd (occursAt_nil h.1).1 hpat
  | cons c s' ih =>
    rintro i ⟨hi, huniq⟩
    by_cases hp : pat <+: c :: s'
    · have hi0 := huniq 0 (occursAt_zero.2 hp)
      subst hi0
      rw [pyReplace_prefix_step hpat hp]
      simp only [List.take_zero, List.nil_append, Nat.zero_add]
      congr 1
      apply pyReplace_no_occurrence hpat
      intro j hj
      have hocc := occursAt_of_occursAt_drop hpat hj
      have := huniq (pat.length + j) hocc
      omega
    · have h0 : ¬ occursAt pat (c :: s') 0 := fun h => hp (occursAt_zero.1 h)
      cases i with
      | zero => exact absurd hi h0
      | succ i' =>
        rw [pyReplace_cons_neg hpat hp,
          ih i' ⟨occursAt_cons_succ.1 hi, fun j hj => by
            have := huniq (j + 1) (occursAt_cons_succ.2 hj); omega⟩]
        rw [show i' + 1 + pat.length = (i' + pat.length) + 1 by omega,
          List.take_succ_cons, List.drop_succ_cons]
        simp

lemma version_to_str_ne_nil (v : Version) : version_to_str v ≠ [] := by
  simp [version_to_str, pyJoin]

/-- Success path of the manifest writer: a unique occurrence of the prior
version string at index `i` is replaced in place by the new version string. -/
lemma update_success (prior new : Version) (text : List Char) (i : Nat)
    (h : uniqueOccursAt (version_to_str prior) text i) :
    update_info_toml_version prior new true text =
      (Except.ok (), text.take i ++ version_to_str new
        ++ text.drop (i + (version_to_str prior).length)) := by
  obtain ⟨hf, hr⟩ := unique_find_rfind h
  unfold update_info_toml_version
  rw [if_neg (by simp), if_neg (by simp [occursAt_isSome_find h.1]),
    if_neg (by simp [hf, hr]), pyReplace_unique (version_to_str_ne_nil prior) text i h]

/-! ### Overlap analysis: when replacement cannot reintroduce the pattern -/

lemma prefix_of_prefix_append_left {u v w : List Char} (h : u <+: v ++ w)
    (hlen : u.length ≤ v.length) : u <+: v := by
  rw [List.prefix_iff_eq_take] at h ⊢
  rwa [List.take_append_of_le_length hlen] at h

lemma eq_left_of_prefix_append {u v w : List Char} (h : u <+: v ++ w)
    (hlen : u.length = v.length) : u = v :=
  (prefix_of_prefix_append_left h (by omega)).eq_of_length hlen

lemma prefix_append_split {u v w : List Char} (h : u <+: v ++ w)
    (hlen : v.length ≤ u.length) :
    u.take v.length = v ∧ u.drop v.length <+: w := by
  obtain ⟨r, hr⟩ := h
  have h2 : u.take v.length ++ (u.drop v.length ++ r) = v ++ w := by
    rw [← List.append_assoc, List.take_append_drop]; exact hr
  have hl : (u.take v.length).length = v.length := by
    rw [List.length_take]; omega
  obtain ⟨h3, h4⟩ := List.append_inj h2 hl
  exact ⟨h3, ⟨r, h4⟩⟩

lemma occursAt_decomp {pat s : List Char} {i : Nat} (h : occursAt pat s i) :
    s = s.take i ++ pat ++ s.drop (i + pat.length) := by
  obtain ⟨h1, h2⟩ := h
  obtain ⟨r, hr⟩ := h2
  have hr2 : r = s.drop (i + pat.length) := by
    have hd : (pat ++ r).drop pat.length = (s.drop i).drop pat.length := by rw [hr]
    rw [List.drop_left, List.drop_drop] at hd
    exact hd
  conv_lhs => rw [← List.take_append_drop i s]
  rw [List.append_assoc, ← hr2, hr]

/-- If `pat` occurs exactly once in `X ++ pat ++ Y` (namely at the boundary)
and `sub` has the same length as `pat`, then after substituting `sub` for that
occurrence no occurrence of `pat` remains, provided: `pat ≠ sub`; no proper
final segment of a `pat`-occurrence can begin inside `sub` (`hmid`); and every
feasible left overlap would already have produced a second occurrence of `pat`
in the original (`hleft`). -/
lemma no_occurrence_after_subst (pat sub X Y : List Char)
    (hlen : pat.length = sub.length) (hpos : 0 < pat.length) (hneq : pat ≠ sub)
    (hmid : ∀ k, k < pat.length → 0 < k → pat.take (pat.length - k) ≠ sub.drop k)
    (hleft : ∀ m, m < pat.length → 0 < m →
      pat.drop m = sub.take (pat.length - m) → pat <+: pat.take m ++ pat)
    (huniq : ∀ j, occursAt pat (X ++ pat ++ Y) j → j = X.length) :
    ∀ i, ¬ occursAt pat (X ++ sub ++ Y) i := by
  intro i hocc
  obtain ⟨hil, hpre⟩ := hocc
  rw [List.length_append, List.length_append] at hil
  by_cases h1 : i + pat.length ≤ X.length
  · -- the occurrence would lie entirely inside `X`: it was already in the original
    have hdropX : (X ++ sub ++ Y).drop i = X.drop i ++ (sub ++ Y) := by
      rw [List.append_assoc, List.drop_append_of_le_length (by omega)]
    rw [hdropX] at hpre
    have hXi : pat <+: X.drop i :=
      prefix_of_prefix_append_left hpre (by rw [List.length_drop]; omega)
    have horig : occursAt pat (X ++ pat ++ Y) i := by
      refine ⟨by rw [List.length_append, List.length_append]; omega, ?_⟩
      rw [List.append_assoc, List.drop_append_of_le_length (by omega)]
      exact hXi.trans (List.prefix_append _ _)
    have := huniq i horig
    omega
  · by_cases h2 : X.length + pat.length ≤ i
    · -- entirely at or after the end of the substituted block: same index in the original
      obtain ⟨d, rfl⟩ : ∃ d, i = (X ++ sub).length + d :=
        ⟨i - (X ++ sub).length, by rw [List.length_append]; omega⟩
      rw [List.drop_append] at hpre
      have hXsub : (X ++ sub).length = X.length + sub.length := List.length_append _ _
      have hXpat : (X ++ pat).length = X.length + pat.length := List.length_append _ _
      have horig : occursAt pat (X ++ pat ++ Y) ((X ++ pat).length + d) := by
        refine ⟨?_, ?_⟩
        · simp only [List.length_append]
          omega
        · rw [List.drop_append]
          exact hpre
      have := huniq _ horig
      omega
    · rcases Nat.lt_trichotomy i X.length with hlt | heq | hgt
      · -- left crossing: the occurrence starts in `X` and runs into `sub`
        have hdropX : (X ++ sub ++ Y).drop i = X.drop i ++ (sub ++ Y) := by
          rw [List.append_assoc, List.drop_append_of_le_length (by omega)]
        rw [hdropX] at hpre
        have hm : (X.drop i).length = X.length - i := List.length_drop _ _
        obtain ⟨htake, hdroppre⟩ :=
          prefix_append_split hpre (by rw [hm]; omega)
        have hdsub : pat.drop (X.drop i).length
            = sub.take (pat.length - (X.drop i).length) := by
          have hps : pat.drop (X.drop i).length <+: sub :=
            prefix_of_prefix_append_left hdroppre
              (by rw [List.length_drop, hm]; omega)
          rw [List.prefix_iff_eq_take] at hps
          rw [hps, List.length_drop]
        have hpp := hleft (X.drop i).length (by rw [hm]; omega) (by rw [hm]; omega) hdsub
        have horig : occursAt pat (X ++ pat ++ Y) i := by
          refine ⟨by simp only [List.length_append]; omega, ?_⟩
          rw [List.append_assoc, List.drop_append_of_le_length (by omega), ← htake]
          refine hpp.trans ?_
          have hstep : pat.take (X.drop i).length ++ pat
              <+: (pat.take (X.drop i).length ++ pat) ++ Y := List.prefix_append _ _
          rwa [List.append_assoc] at hstep
        have := huniq i horig
        omega
      · -- the occurrence would sit exactly where `sub` was written: `pat = sub`
        subst heq
        rw [List.append_assoc, List.drop_left] at hpre
        exact hneq (eq_left_of_prefix_append hpre hlen)
      · -- the occurrence starts strictly inside `sub`
        obtain ⟨k, rfl⟩ : ∃ k, i = X.length + k := ⟨i - X.length, by omega⟩
        have hkpos : 0 < k := by omega
        have hkL : k < pat.length := by omega
        have hdropM : (X ++ sub ++ Y).drop (X.length + k) = sub.drop k ++ Y := by
          rw [List.append_assoc, List.drop_append,
            List.drop_append_of_le_length (by omega)]
        rw [hdropM] at hpre
        have h5 : pat.take (pat.length - k) = sub.drop k := by
          have h6 := (prefix_append_split hpre (by rw [List.length_drop]; omega)).1
          rw [List.length_drop] at h6
          rw [show pat.length - k = sub.length - k by omega]
          exact h6
        exact hmid k hkL hkpos h5

/-! ### Claims C4, C5, C9 -/

/-- C4: whenever the prior version's canonical string occurs more than once in
the manifest content (two occurrences at distinct indices), the first and last
occurrence indices differ, and the writer fails with `AmbiguousVersion`
(`Err.ambiguousVersion`, the raise at src/op-releaser.py:39) without touching
the content. -/
theorem update_ambiguous_rejected (prior new : Version) (text : List Char) (i j : Nat)
    (hij : i ≠ j) (hi : occursAt (version_to_str prior) text i)
    (hj : occursAt (version_to_str prior) text j) :
    pyFind (version_to_str prior) text ≠ pyRFind (version_to_str prior) text ∧
    update_info_toml_version prior new true text
      = (Except.error Err.ambiguousVersion, text) := by
  have hne : pyFind (version_to_str prior) text ≠ pyRFind (version_to_str prior) text := by
    intro heq
    cases hf : pyFind (version_to_str prior) text with
    | none => exact (pyFind_eq_none_iff text).1 hf i hi
    | some m =>
      have hr : pyRFind (version_to_str prior) text = some m := by rw [← heq, hf]
      have huniq := find_rfind_eq_unique hf hr
      have h1 := huniq.2 i hi
      have h2 := huniq.2 j hj
      omega
  refine ⟨hne, ?_⟩
  unfold update_info_toml_version
  rw [if_neg (by simp), if_neg (by simp [occursAt_isSome_find hi]), if_pos hne]

/-- Witness for C4: `"0.1.0x0.1.0"` contains `"0.1.0"` at indices 0 and 6,
and the writer rejects it with `AmbiguousVersion`. -/
theorem update_ambiguous_rejected_witness :
    (0 : Nat) ≠ 6 ∧
    occursAt (version_to_str ((0 : Int), 1, 0))
      ['0', '.', '1', '.', '0', 'x', '0', '.', '1', '.', '0'] 0 ∧
    occursAt (version_to_str ((0 : Int), 1, 0))
      ['0', '.', '1', '.', '0', 'x', '0', '.', '1', '.', '0'] 6 ∧
    update_info_toml_version ((0 : Int), 1, 0) ((0 : Int), 1, 1) true
        ['0', '.', '1', '.', '0', 'x', '0', '.', '1', '.', '0']
      = (Except.error Err.ambiguousVersion,
         ['0', '.', '1', '.', '0', 'x', '0', '.', '1', '.', '0']) :=
  ⟨by decide, by decide, by decide,
    (update_ambiguous_rejected ((0 : Int), 1, 0) ((0 : Int), 1, 1)
      ['0', '.', '1', '.', '0', 'x', '0', '.', '1', '.', '0'] 0 6
      (by decide) (by decide) (by decide)).2⟩

/-- C5: whenever the prior version's canonical string is absent from the
manifest content, the writer fails with `VersionNotFound`
(`Err.versionNotFound`, the raise at src/op-releaser.py:37) without touching
the content. -/
theorem update_absent_rejected (prior new : Version) (text : List Char)
    (habs : ¬ version_to_str prior <:+: text) :
    update_info_toml_version prior new true text
      = (Except.error Err.versionNotFound, text) := by
  have hfind : pyFind (version_to_str prior) text = none :=
    (pyFind_eq_none_iff text).2
      (fun j hj => habs (infix_iff_exists_occursAt.2 ⟨j, hj⟩))
  unfold update_info_toml_version
  rw [if_neg (by simp), if_pos (by simp [hfind])]

/-- Witness for C5: `"xyz"` does not contain `"0.1.0"`, and the writer rejects
it with `VersionNotFound`. -/
theorem update_absent_rejected_witness :
    (¬ version_to_str ((0 : Int), 1, 0) <:+: ['x', 'y', 'z']) ∧
    update_info_toml_version ((0 : Int), 1, 0) ((0 : Int), 1, 1) true ['x', 'y', 'z']
      = (Except.error Err.versionNotFound, ['x', 'y', 'z']) :=
  ⟨by decide,
    update_absent_rejected ((0 : Int), 1, 0) ((0 : Int), 1, 1) ['x', 'y', 'z'] (by decide)⟩

/-- C9: the manifest writer is atomic on error: whenever it returns an error
(missing file, version string absent, or version string duplicated), the file
content is unchanged, because all checks precede the single write. -/
theorem update_atomic_on_error (prior new : Version) (info_exists : Bool)
    (text : List Char) (e : Err)
    (h : (update_info_toml_version prior new info_exists text).1 = Except.error e) :
    (update_info_toml_version prior new info_exists text).2 = text := by
  revert h
  simp only [update_info_toml_version]
  split
  · simp
  · split
    · simp
    · split
      · simp
      · simp

/-- Witness for C9: the missing-file error leaves the content `"x"` unchanged. -/
theorem update_atomic_on_error_witness :
    (update_info_toml_version ((0 : Int), 1, 0) ((0 : Int), 1, 1) false ['x']).1
        = Except.error Err.missingManifest ∧
    (update_info_toml_version ((0 : Int), 1, 0) ((0 : Int), 1, 1) false ['x']).2 = ['x'] :=
  ⟨by rfl,
    update_atomic_on_error ((0 : Int), 1, 0) ((0 : Int), 1, 1) false ['x']
      Err.missingManifest (by rfl)⟩

/-- C1: `bump_version` maps (M, N, P) under "major" to (M+1, 0, 0), under
"minor" to (M, N+1, 0), and under "patch" to (M, N, P+1): exactly the bumped
component is incremented by one, lower components are reset to zero and higher
components are unchanged, for every non-negative version triple. -/
theorem bump_version_correct (M N P : Nat) :
    bump_version ((M : Int), (N : Int), (P : Int)) "major"
        = Except.ok ((M : Int) + 1, 0, 0) ∧
    bump_version ((M : Int), (N : Int), (P : Int)) "minor"
        = Except.ok ((M : Int), (N : Int) + 1, 0) ∧
    bump_version ((M : Int), (N : Int), (P : Int)) "patch"
        = Except.ok ((M : Int), (N : Int), (P : Int) + 1) := by
  refine ⟨?_, ?_, ?_⟩
  · rw [bump_version, if_pos rfl]
  · rw [bump_version, if_neg (by decide), if_pos rfl]
  · rw [bump_version, if_neg (by decide), if_neg (by decide), if_pos rfl]

/-- C8: parsing the canonical rendering of any non-negative version triple
yields the triple back: `version_from_str (version_to_str v) = ok v`. -/
theorem version_roundtrip (a b c : Nat) :
    version_from_str (version_to_str ((a : Int), (b : Int), (c : Int)))
      = Except.ok ((a : Int), (b : Int), (c : Int)) := by
  have hv : version_to_str ((a : Int), (b : Int), (c : Int))
      = natToStr a ++ '.' :: (natToStr b ++ '.' :: natToStr c) := by
    simp [version_to_str, pyJoin, strOfInt_natCast, List.append_assoc]
  have hsplit : pySplit '.' (version_to_str ((a : Int), (b : Int), (c : Int)))
      = [natToStr a, natToStr b, natToStr c] := by
    rw [hv, pySplit_append _ (dot_not_mem_natToStr a),
        pySplit_append _ (dot_not_mem_natToStr b),
        pySplit_of_not_mem (dot_not_mem_natToStr c)]
  rw [version_from_str]
  simp only [hsplit]
  rw [if_neg (by simp)]
  simp [pyInt_natToStr]

/-! ### Claim C6: successful write, and the 0.1.0 → 0.1.1 patch example -/

/-- C6 (amended): if the prior version's canonical string occurs exactly once
in the manifest, at index `i`, the writer succeeds and produces exactly the
original content with the new version's canonical string substituted at that
position.  Moreover, for the spec's example — a patch bump from 0.1.0 to
0.1.1 — no occurrence of "0.1.0" remains anywhere in the result.  (The
original claim's blanket "no remaining occurrence of the prior version's
canonical string" fails for some version pairs, where the new text overlaps
with surrounding characters: see the counterexample with prior 1.0.0 and
manifest "1.0.0.0.0".) -/
theorem update_unique_success_and_patch_example :
    (∀ (prior new : Version) (text : List Char) (i : Nat),
      uniqueOccursAt (version_to_str prior) text i →
      update_info_toml_version prior new true text
        = (Except.ok (), text.take i ++ version_to_str new
            ++ text.drop (i + (version_to_str prior).length))) ∧
    (∀ (text : List Char) (i : Nat),
      uniqueOccursAt (version_to_str ((0 : Int), 1, 0)) text i →
      ∀ j, ¬ occursAt (version_to_str ((0 : Int), 1, 0))
        (update_info_toml_version ((0 : Int), 1, 0) ((0 : Int), 1, 1) true text).2 j) := by
  refine ⟨update_success, ?_⟩
  intro text i h j hocc2
  have htext := occursAt_decomp h.1
  have hXlen : (text.take i).length = i := by
    rw [List.length_take]
    have := h.1.1
    omega
  rw [update_success ((0 : Int), 1, 0) ((0 : Int), 1, 1) text i h] at hocc2
  refine no_occurrence_after_subst (version_to_str ((0 : Int), 1, 0))
    (version_to_str ((0 : Int), 1, 1)) (text.take i)
    (text.drop (i + (version_to_str ((0 : Int), 1, 0)).length))
    (by decide) (by decide) (by decide) (by decide) (by decide) ?_ j hocc2
  intro j' hj'
  rw [← htext] at hj'
  rw [hXlen]
  exact h.2 j' hj'

/-- Counterexample to C6 as stated: the manifest `"1.0.0.0.0"` contains the
prior version string `"1.0.0"` exactly once (at index 0); the patch write
1.0.0 → 1.0.1 succeeds, yet the result `"1.0.1.0.0"` still contains
`"1.0.0"` (at index 4, straddling the replacement boundary). -/
theorem update_prior_can_remain_counterexample :
    uniqueOccursAt (version_to_str ((1 : Int), 0, 0))
      ['1', '.', '0', '.', '0', '.', '0', '.', '0'] 0 ∧
    update_info_toml_version ((1 : Int), 0, 0) ((1 : Int), 0, 1) true
        ['1', '.', '0', '.', '0', '.', '0', '.', '0']
      = (Except.ok (), ['1', '.', '0', '.', '1', '.', '0', '.', '0']) ∧
    occursAt (version_to_str ((1 : Int), 0, 0))
      ['1', '.', '0', '.', '1', '.', '0', '.', '0'] 4 :=
  ⟨find_rfind_eq_unique (by decide) (by decide), by rfl, by decide⟩

/-- Witness for C6: the manifest `"v 0.1.0"` has a unique occurrence of
"0.1.0" at index 2; the patch write produces `"v 0.1.1"`, and no occurrence
of "0.1.0" remains (checked here at index 2 of the result). -/
theorem update_unique_success_and_patch_example_witness :
    uniqueOccursAt (version_to_str ((0 : Int), 1, 0))
      ['v', ' ', '0', '.', '1', '.', '0'] 2 ∧
    update_info_toml_version ((0 : Int), 1, 0) ((0 : Int), 1, 1) true
        ['v', ' ', '0', '.', '1', '.', '0']
      = (Except.ok (), ['v', ' ', '0', '.', '1', '.', '1']) ∧
    ¬ occursAt (version_to_str ((0 : Int), 1, 0))
      (update_info_toml_version ((0 : Int), 1, 0) ((0 : Int), 1, 1) true
        ['v', ' ', '0', '.', '1', '.', '0']).2 2 :=
  ⟨find_rfind_eq_unique (by decide) (by decide),
    by
      rw [update_unique_success_and_patch_example.1 ((0 : Int), 1, 0) ((0 : Int), 1, 1)
        ['v', ' ', '0', '.', '1', '.', '0'] 2 (find_rfind_eq_unique (by decide) (by decide))]
      rfl,
    update_unique_success_and_patch_example.2 ['v', ' ', '0', '.', '1', '.', '0'] 2
      (find_rfind_eq_unique (by decide) (by decide)) 2⟩

/-! ### Claims C2, C3, C7, C10 -/

/-- C2: the orchestrator runs its steps in the fixed order
check-repo, read version, bump, write manifest, commit version, build,
commit artifacts, and is fail-fast: the trace of started steps is always a
prefix of that order (no retry, no reordering, no compensating step); a
successful run starts every step; and each step is executed if and only if
every earlier step completed without raising — so whenever any step raises,
no later step in the sequence is executed.  (The build step never raises,
which is why the artifact commit runs exactly when the build does.) -/
theorem run_release_fail_fast (env : Env) (bump_level : String) :
    (run_release env bump_level).trace <+: releaseSteps ∧
    ((run_release env bump_level).outcome = Except.ok () →
      (run_release env bump_level).trace = releaseSteps) ∧
    Step.checkRepo ∈ (run_release env bump_level).trace ∧
    (Step.readVersion ∈ (run_release env bump_level).trace ↔ checkPasses env) ∧
    (Step.bumpVersion ∈ (run_release env bump_level).trace ↔ readPasses env) ∧
    (Step.writeManifest ∈ (run_release env bump_level).trace ↔
      bumpPasses env bump_level) ∧
    (Step.commitVersion ∈ (run_release env bump_level).trace ↔
      writePasses env bump_level) ∧
    (Step.build ∈ (run_release env bump_level).trace ↔
      commitVersionPasses env bump_level) ∧
    (Step.commitArtifacts ∈ (run_release env bump_level).trace ↔
      commitVersionPasses env bump_level) ∧
    ((run_release env bump_level).outcome = Except.ok () ↔
      commitArtifactsPasses env bump_level) := by
  unfold run_release
  repeat' split
  all_goals
    simp_all [releaseSteps, checkPasses, readPasses, bumpPasses, writePasses,
      commitVersionPasses, commitArtifactsPasses, readResult, bumpResult,
      writeResult, commitVersionResult, commitArtifactsResult, Except.isOk,
      Except.toBool, List.cons_prefix_cons, List.nil_prefix]

/-- Witness for C2: a fully successful run (repository present and non-bare,
well-formed manifest `meta.version = "0.1.0"`, both commits succeed): the
outcome is `ok` and every step ran, in order. -/
theorem run_release_fail_fast_witness :
    (run_release
        ⟨true, ['0', '.', '1', '.', '0'],
          some [("meta", [("version", "0.1.0"), ("name", "plug")])],
          true, false, true, true, 0⟩ "patch").outcome = Except.ok () ∧
    (run_release
        ⟨true, ['0', '.', '1', '.', '0'],
          some [("meta", [("version", "0.1.0"), ("name", "plug")])],
          true, false, true, true, 0⟩ "patch").trace = releaseSteps :=
  ⟨by rfl,
    (run_release_fail_fast
      ⟨true, ['0', '.', '1', '.', '0'],
        some [("meta", [("version", "0.1.0"), ("name", "plug")])],
        true, false, true, true, 0⟩ "patch").2.1 (by rfl)⟩

/-- C3: the build step never fails the release.  Changing the build process's
exit status changes nothing but the logged payload — trace, outcome, final
manifest text and git events are identical for every return code — and
whenever the build step runs, the artifact-commit step still runs. -/
theorem build_never_fails_release (env : Env) (bump_level : String) (rc : Int) :
    ((run_release
        ⟨env.fileExists, env.fileText, env.fileDoc, env.repoExists, env.repoBare,
          env.commitVersionOk, env.commitArtifactsOk, rc⟩ bump_level).trace
      = (run_release env bump_level).trace ∧
     (run_release
        ⟨env.fileExists, env.fileText, env.fileDoc, env.repoExists, env.repoBare,
          env.commitVersionOk, env.commitArtifactsOk, rc⟩ bump_level).outcome
      = (run_release env bump_level).outcome ∧
     (run_release
        ⟨env.fileExists, env.fileText, env.fileDoc, env.repoExists, env.repoBare,
          env.commitVersionOk, env.commitArtifactsOk, rc⟩ bump_level).fileText
      = (run_release env bump_level).fileText ∧
     (run_release
        ⟨env.fileExists, env.fileText, env.fileDoc, env.repoExists, env.repoBare,
          env.commitVersionOk, env.commitArtifactsOk, rc⟩ bump_level).events
      = (run_release env bump_level).events) ∧
    (Step.build ∈ (run_release env bump_level).trace →
      Step.commitArtifacts ∈ (run_release env bump_level).trace) := by
  obtain ⟨fe, ft, fd, re, rb, cv, ca, rc0⟩ := env
  unfold run_release
  dsimp only
  repeat' split
  all_goals exact ⟨⟨rfl, rfl, rfl, rfl⟩, by simp [releaseSteps]⟩

/-- Witness for C3: on the successful environment, the build step runs, the
artifact commit still runs, and replacing the build return code 0 by 17
leaves the outcome unchanged. -/
theorem build_never_fails_release_witness :
    Step.build ∈ (run_release
        ⟨true, ['0', '.', '1', '.', '0'],
          some [("meta", [("version", "0.1.0"), ("name", "plug")])],
          true, false, true, true, 0⟩ "patch").trace ∧
    Step.commitArtifacts ∈ (run_release
        ⟨true, ['0', '.', '1', '.', '0'],
          some [("meta", [("version", "0.1.0"), ("name", "plug")])],
          true, false, true, true, 0⟩ "patch").trace ∧
    (run_release
        ⟨true, ['0', '.', '1', '.', '0'],
          some [("meta", [("version", "0.1.0"), ("name", "plug")])],
          true, false, true, true, 17⟩ "patch").outcome
      = (run_release
        ⟨true, ['0', '.', '1', '.', '0'],
          some [("meta", [("version", "0.1.0"), ("name", "plug")])],
          true, false, true, true, 0⟩ "patch").outcome :=
  ⟨by decide,
    (build_never_fails_release
      ⟨true, ['0', '.', '1', '.', '0'],
        some [("meta", [("version", "0.1.0"), ("name", "plug")])],
        true, false, true, true, 0⟩ "patch" 17).2 (by decide),
    (build_never_fails_release
      ⟨true, ['0', '.', '1', '.', '0'],
        some [("meta", [("version", "0.1.0"), ("name", "plug")])],
        true, false, true, true, 0⟩ "patch" 17).1.2.1⟩

/-- C7: with no version-control metadata (`Repo(...)` raises) or a bare
repository, the run fails at the repository check, before the manifest is
read or written and before any commit or tag: the trace is just
`[checkRepo]`, the manifest text is untouched and no git event happened. -/
theorem no_repo_aborts_before_io (env : Env) (bump_level : String)
    (h : env.repoExists = false ∨ env.repoBare = true) :
    (run_release env bump_level).trace = [Step.checkRepo] ∧
    ((run_release env bump_level).outcome = Except.error Err.invalidGitRepository ∨
     (run_release env bump_level).outcome = Except.error Err.notInGitRepo) ∧
    (run_release env bump_level).fileText = env.fileText ∧
    (run_release env bump_level).events = [] ∧
    Step.readVersion ∉ (run_release env bump_level).trace ∧
    Step.writeManifest ∉ (run_release env bump_level).trace := by
  obtain ⟨fe, ft, fd, re, rb, cv, ca, rc⟩ := env
  simp only at h
  rcases h with h | h
  · subst h
    unfold run_release git_check_in_repo git_get_repo
    simp
  · subst h
    cases re <;>
      (unfold run_release git_check_in_repo git_get_repo; simp)

/-- Witness for C7: a directory with no repository: the run aborts with only
the repository check started and the manifest `"x"` untouched. -/
theorem no_repo_aborts_before_io_witness :
    ((false : Bool) = false ∨ (false : Bool) = true) ∧
    (run_release ⟨true, ['x'], none, false, false, true, true, 0⟩ "patch").trace
      = [Step.checkRepo] ∧
    (run_release ⟨true, ['x'], none, false, false, true, true, 0⟩ "patch").fileText
      = ['x'] :=
  ⟨Or.inl rfl,
    (no_repo_aborts_before_io ⟨true, ['x'], none, false, false, true, true, 0⟩
      "patch" (Or.inl rfl)).1,
    (no_repo_aborts_before_io ⟨true, ['x'], none, false, false, true, true, 0⟩
      "patch" (Or.inl rfl)).2.2.1⟩

/-- C10: the reader requires `meta.name` even though the name is only logged:
if the manifest parses but `meta.name` is missing — even with `meta.version`
present — or the whole `meta` table is missing, the run aborts during the
read step with a `KeyError`, before any bump or mutation: the trace stops at
`readVersion`, the manifest text is untouched and no git event happened. -/
theorem missing_name_aborts (env : Env) (bump_level : String) (doc : TomlDoc)
    (hre : env.repoExists = true) (hrb : env.repoBare = false)
    (hfe : env.fileExists = true) (hfd : env.fileDoc = some doc) :
    (∀ meta v, List.lookup "meta" doc = some meta →
      List.lookup "version" meta = some v →
      List.lookup "name" meta = none →
      run_release env bump_level
        = ⟨[Step.checkRepo, Step.readVersion], Except.error (Err.keyError "name"),
           env.fileText, [], none⟩) ∧
    (List.lookup "meta" doc = none →
      run_release env bump_level
        = ⟨[Step.checkRepo, Step.readVersion], Except.error (Err.keyError "meta"),
           env.fileText, [], none⟩) := by
  have hcheck : git_check_in_repo env.repoExists env.repoBare = Except.ok true := by
    rw [hre, hrb]; rfl
  constructor
  · intro meta v hm hv hn
    have hread : read_info_toml_version env.fileExists env.fileDoc
        = Except.error (Err.keyError "name") := by
      rw [hfe, hfd]
      unfold read_info_toml_version
      simp [hm, hv, hn]
    unfold run_release
    rw [hcheck, hread]
    rfl
  · intro hm
    have hread : read_info_toml_version env.fileExists env.fileDoc
        = Except.error (Err.keyError "meta") := by
      rw [hfe, hfd]
      unfold read_info_toml_version
      simp [hm]
    unfold run_release
    rw [hcheck, hread]
    rfl

/-- Witness for C10: a manifest whose `meta` table has a well-formed
`version` but no `name`: the run aborts with `KeyError("name")` after only
the repository check and the read step. -/
theorem missing_name_aborts_witness :
    List.lookup "version" [("version", "1.2.3")] = some "1.2.3" ∧
    List.lookup "name" [("version", "1.2.3")] = none ∧
    run_release ⟨true, ['x'], some [("meta", [("version", "1.2.3")])],
        true, false, true, true, 0⟩ "patch"
      = ⟨[Step.checkRepo, Step.readVersion], Except.error (Err.keyError "name"),
         ['x'], [], none⟩ :=
  ⟨by decide, by decide,
    (missing_name_aborts
      ⟨true, ['x'], some [("meta", [("version", "1.2.3")])], true, false, true, true, 0⟩
      "patch" [("meta", [("version", "1.2.3")])] rfl rfl rfl rfl).1
      [("version", "1.2.3")] "1.2.3" (by decide) (by decide) (by decide)⟩
